import Mathlib

/-!
Shallow embedding of `msb2txt.py` (MSB text extractor) and verification of
the specification claims about it.

Buffers (`bytes`) are modelled as `List Nat` (each element a byte value),
indices as `Int` (Python indices may be negative), and Python's indexing,
slicing and `struct.unpack` semantics are modelled explicitly.  The decoding
loop of `MsbParser.parse_text_data` is modelled with explicit fuel, since the
source loop is not structurally terminating; exceptions (`struct.error`,
`ValueError`, `UnboundLocalError`) are modelled by an error outcome.
-/

namespace Msb

/-! ## Python indexing and slicing semantics -/

/-- `bytes` single-element indexing `raw[i]` for an `Int` index: non-negative
indices read from the front, negative indices not below `-len` read from the
end, anything else is an `IndexError` (`none`). -/
def pyByteAt (raw : List Nat) (i : Int) : Option Nat :=
  if 0 ≤ i then raw.get? i.toNat
  else if -(raw.length : Int) ≤ i then raw.get? (i + raw.length).toNat
  else none

/-- Normalisation of one slice bound, as Python does it: negative bounds are
offset by the length (clamped below by 0), non-negative bounds are clamped
above by the length. -/
def sliceIdx (len : Nat) (x : Int) : Nat :=
  if x < 0 then (x + len).toNat else min x.toNat len

/-- Python slice `raw[a:b]` (step 1). -/
def pySlice (raw : List Nat) (a b : Int) : List Nat :=
  let s := sliceIdx raw.length a
  let e := sliceIdx raw.length b
  (raw.drop s).take (e - s)

/-! ## Hexadecimal / decimal formatting (Python format specs `02X`, `08X`) -/

/-- Uppercase hexadecimal digit for `n < 16`. -/
def hexChar (n : Nat) : Char :=
  if n < 10 then Char.ofNat (48 + n) else Char.ofNat (55 + n)

/-- Structural worker for `toHexList`: the fuel only bounds the recursion
depth and `fuel = n + 1` is always sufficient, since the argument at least
halves every step. -/
def toHexListAux : Nat → Nat → List Char
  | 0, _ => []
  | fuel + 1, n =>
    if n < 16 then [hexChar n]
    else toHexListAux fuel (n / 16) ++ [hexChar (n % 16)]

/-- Uppercase hexadecimal digit list of `n`, most significant first, with no
leading zeros (`[Char.ofNat 48]` for 0), as Python's `X` format produces. -/
def toHexList (n : Nat) : List Char := toHexListAux (n + 1) n

/-- Python `format(n, '0{w}X')`: uppercase hex, zero-padded on the left to
width `w`. -/
def pyFormatHex (n w : Nat) : String :=
  String.mk (List.replicate (w - (toHexList n).length) (Char.ofNat 48) ++ toHexList n)

/-! ## `struct.unpack` models -/

/-- Error taxonomy for the header reader: Python `ValueError` on a bad magic,
`struct.error` on a wrong-sized unpack buffer. -/
inductive FormatError where
  | badMagic
  | structError
deriving DecidableEq

/-- Signed 32-bit little-endian value of four byte values. -/
def i32ofLE (b0 b1 b2 b3 : Nat) : Int :=
  let u : Nat := b0 + 256 * b1 + 65536 * b2 + 16777216 * b3
  if u < 2147483648 then (u : Int) else (u : Int) - 4294967296

/-- `struct.unpack('<i', s)`: requires exactly 4 bytes. -/
def unpackI32LE (s : List Nat) : Except FormatError Int :=
  match s with
  | [b0, b1, b2, b3] => .ok (i32ofLE b0 b1 b2 b3)
  | _ => .error .structError

/-- `struct.unpack('<ii', s)`: requires exactly 8 bytes. -/
def unpackI32I32LE (s : List Nat) : Except FormatError (Int × Int) :=
  match s with
  | [b0, b1, b2, b3, b4, b5, b6, b7] =>
      .ok (i32ofLE b0 b1 b2 b3, i32ofLE b4 b5 b6 b7)
  | _ => .error .structError

/-! ## `read_font_data` and `hex_to_char` -/

/-- `read_font_data` (the character-table loader), applied to the decoded
file content: removes every `'\r'`, every `'\n'` and every `' '` (U+0020),
then strips one leading BOM (U+FEFF) if present.  Note the source only
replaces the regular space, although its comment claims ideographic spaces
as well. -/
def read_font_data (content : List Char) : List Char :=
  let c1 := content.filter (fun c => c ≠ Char.ofNat 13)
  let c2 := c1.filter (fun c => c ≠ Char.ofNat 10)
  let c3 := c2.filter (fun c => c ≠ Char.ofNat 32)
  match c3 with
  | [] => []
  | c :: rest => if c = Char.ofNat 0xFEFF then rest else c :: rest

/-- `hex_to_char(index, font_data)`: the character at `index` paired with
`True`, or an error message paired with `False` when `index` is out of
range. -/
def hex_to_char (index : Nat) (font_data : List Char) : String × Bool :=
  if h : index < font_data.length then
    (String.singleton (font_data.get ⟨index, h⟩), true)
  else
    ("Error: Index " ++ toString index ++ " out of range (0-" ++
       toString ((font_data.length : Int) - 1) ++ ")", false)

/-! ## The opcode table -/

/-- `MsbParser.COMMAND_CODES`. -/
def COMMAND_CODES : List (Nat × String) :=
  [(0x00, "LineBreak"),
   (0x01, "CharacterName"),
   (0x02, "LineStart"),
   (0x03, "LineEnd"),
   (0x04, "SetColor"),
   (0x09, "RubyBase"),
   (0x0A, "RubyTextStart"),
   (0x0B, "RubyTextEnd"),
   (0x12, "SetMarginLeft"),
   (0x18, "InputText"),
   (0x20, "PlayerSurname"),
   (0x21, "PlayerGivenName"),
   (0xFF, "StringEnd")]

/-! ## The decoding engine (`MsbParser.parse_text_data`) -/

/-- The per-file configuration consumed by the decoding loop: raw file
bytes, character table, the two player-name strings, the word-width mode
and the text-block base offset. -/
structure DecCfg where
  raw : List Nat
  font : List Char
  surname : String
  givenName : String
  is32bit : Bool
  textOffset : Int
deriving DecidableEq

/-- The loop state of one entry decode: the cursor `i`, the function-local
`char_code` variable (`none` models "not yet assigned"), and the
accumulator `current_string`. -/
structure ParseState where
  i : Int
  cc : Option Nat
  acc : String
deriving DecidableEq

/-- Result of one iteration of the `while` loop. -/
inductive StepResult where
  | cont (st : ParseState)
  | done (cc : Option Nat) (acc : String)
  | error
deriving DecidableEq

/-- Appending one decoded character code: the table character on success,
the bracketed 8-digit uppercase hex placeholder on an out-of-range code. -/
def appendDecoded (font : List Char) (acc : String) (code : Nat) : String :=
  let r := hex_to_char code font
  if r.2 then acc ++ r.1 else acc ++ "[" ++ pyFormatHex code 8 ++ "]"

/-- One iteration of the `while i < len(self.raw_data)` loop of
`parse_text_data`.  `done` is a loop exit (bounds or the `0xFF` break),
`error` a Python exception (wrong-sized unpack buffer, or `char_code`
referenced before assignment). -/
def decodeStep (cfg : DecCfg) (st : ParseState) : StepResult :=
  if st.i < (cfg.raw.length : Int) then
    match pyByteAt cfg.raw st.i with
    | none => .error
    | some b =>
      if 0x80 ≤ b ∧ b < 0xFF then
        if cfg.is32bit = false then
          if st.i + 1 < (cfg.raw.length : Int) then
            match pySlice cfg.raw st.i (st.i + 2) with
            | [b0, b1] =>
                let code := (b0 * 256 + b1) % 0x8000
                .cont ⟨st.i + 2, some code, appendDecoded cfg.font st.acc code⟩
            | _ => .error
          else
            match st.cc with
            | none => .error
            | some code => .cont ⟨st.i, some code, appendDecoded cfg.font st.acc code⟩
        else
          if st.i + 3 < (cfg.raw.length : Int) then
            match pySlice cfg.raw st.i (st.i + 4) with
            | [b0, b1, b2, b3] =>
                let code := (b0 * 16777216 + b1 * 65536 + b2 * 256 + b3) % 0x80000000
                .cont ⟨st.i + 4, some code, appendDecoded cfg.font st.acc code⟩
            | _ => .error
          else
            match st.cc with
            | none => .error
            | some code => .cont ⟨st.i, some code, appendDecoded cfg.font st.acc code⟩
      else
        if b = 0xFF then .done st.cc st.acc
        else if b = 0x04 ∧ st.i + 3 < (cfg.raw.length : Int) then
          match pySlice cfg.raw (st.i + 1) (st.i + 4) with
          | [r, g, bb] =>
              .cont ⟨st.i + 4, st.cc,
                st.acc ++ "<#" ++ pyFormatHex r 2 ++ pyFormatHex g 2 ++ pyFormatHex bb 2 ++ ">"⟩
          | _ => .error
        else if b = 0x12 ∧ st.i + 2 < (cfg.raw.length : Int) then
          match pySlice cfg.raw (st.i + 1) (st.i + 3) with
          | [b0, b1] =>
              .cont ⟨st.i + 3, st.cc,
                st.acc ++ "<MarginLeft:" ++ toString (b0 * 256 + b1) ++ ">"⟩
          | _ => .error
        else if b = 0x20 then .cont ⟨st.i + 1, st.cc, st.acc ++ cfg.surname⟩
        else if b = 0x21 then .cont ⟨st.i + 1, st.cc, st.acc ++ cfg.givenName⟩
        else
          .cont ⟨st.i + 1, st.cc,
            st.acc ++ "[" ++ ((COMMAND_CODES.lookup b).getD ("Cmd" ++ pyFormatHex b 2)) ++ "]"⟩
  else .done st.cc st.acc

/-- Outcome of running the loop of one entry to completion (with fuel). -/
inductive EntryOut where
  | ok (cc : Option Nat) (acc : String)
  | exn
  | spin
deriving DecidableEq

/-- The `while` loop of one entry, with fuel; `spin` means the fuel ran out
before the loop exited. -/
def decodeLoop (cfg : DecCfg) : Nat → ParseState → EntryOut
  | 0, _ => .spin
  | fuel + 1, st =>
    match decodeStep cfg st with
    | .cont st2 => decodeLoop cfg fuel st2
    | .done cc acc => .ok cc acc
    | .error => .exn

/-- How a whole decoding pass ended. -/
inductive RunStatus where
  | completed
  | raised
  | outOfFuel
deriving DecidableEq

/-- The decoded-string records accumulated by a pass, with its end status.
On `raised`/`outOfFuel` the records of the entries already finished are
kept (the Python list `self.strings` keeps earlier appends when a later
entry raises). -/
structure ParseOutcome where
  strings : List String
  status : RunStatus
deriving DecidableEq

/-- The entry loop of `parse_text_data`: per entry the cursor starts at
`text_offset + offset`, the accumulator starts empty, and the (function
local!) `char_code` variable persists from entry to entry.  A non-empty
accumulator emits the record `"[" ++ index ++ "] " ++ accumulator`. -/
def parseEntries (cfg : DecCfg) (fuel : Nat) :
    List (Int × Int) → Option Nat → ParseOutcome
  | [], _ => ⟨[], .completed⟩
  | (idx, off) :: rest, cc =>
    match decodeLoop cfg fuel ⟨cfg.textOffset + off, cc, ""⟩ with
    | .ok cc2 acc =>
        let r := parseEntries cfg fuel rest cc2
        if acc = "" then r
        else ⟨("[" ++ toString idx ++ "] " ++ acc) :: r.strings, r.status⟩
    | .exn => ⟨[], .raised⟩
    | .spin => ⟨[], .outOfFuel⟩

/-- `MsbParser.parse_text_data`: decode every entry in table order;
`char_code` starts the pass unassigned. -/
def parse_text_data (cfg : DecCfg) (entries : List (Int × Int)) (fuel : Nat) :
    ParseOutcome :=
  parseEntries cfg fuel entries none

/-! ## The header reader (`MsbParser.read_header`) -/

/-- The magic bytes `b"MES\0"`. -/
def MSB_SIGNATURE : List Nat := [77, 69, 83, 0]

/-- The fields `read_header` fills in: version, entry count, text base
offset, and the entry table read right after the 16-byte header. -/
structure MsbHeader where
  version : Int
  count : Int
  textOffset : Int
  entries : List (Int × Int)
deriving DecidableEq

/-- The entry-table loop of `read_header`: `n` consecutive 8-byte records
starting at byte `pos`. -/
def readEntries (raw : List Nat) : Nat → Nat → Except FormatError (List (Int × Int))
  | 0, _ => .ok []
  | n + 1, pos =>
    match unpackI32I32LE (pySlice raw (pos : Int) ((pos : Int) + 8)) with
    | .error e => .error e
    | .ok e =>
      match readEntries raw n (pos + 8) with
      | .error e2 => .error e2
      | .ok rest => .ok (e :: rest)

/-- `MsbParser.read_header`: check the magic of the first four bytes, then
unpack version, count and text offset as little-endian signed 32-bit
integers, then read `count` entry records (negative counts read none). -/
def read_header (raw : List Nat) : Except FormatError MsbHeader :=
  if pySlice raw 0 4 = MSB_SIGNATURE then
    match unpackI32LE (pySlice raw 4 8) with
    | .error e => .error e
    | .ok version =>
      match unpackI32LE (pySlice raw 8 12) with
      | .error e => .error e
      | .ok count =>
        match unpackI32LE (pySlice raw 12 16) with
        | .error e => .error e
        | .ok toff =>
          match readEntries raw count.toNat 16 with
          | .error e => .error e
          | .ok entries => .ok ⟨version, count, toff, entries⟩
  else .error .badMagic

/-! ## Concrete inputs used by individual claims -/

/-- Recogniser for the characters Python's uppercase hex format produces. -/
def isUpperHexChar (c : Char) : Bool :=
  (decide (Char.ofNat 48 ≤ c) && decide (c ≤ Char.ofNat 57)) ||
  (decide (Char.ofNat 65 ≤ c) && decide (c ≤ Char.ofNat 70))

/-- 16-bit mode, one-character table, text bytes `80 00 80`: the final byte
`0x80` sits at the last buffer position. -/
def cfgC1 : DecCfg := ⟨[0x80, 0x00, 0x80], [Char.ofNat 65], "", "", false, 0⟩

/-- 16-bit mode, one-character table, the buffer is the single byte `0x80`:
an entry whose text begins at the last byte of the buffer. -/
def cfgC2 : DecCfg := ⟨[0x80], [Char.ofNat 65], "", "", false, 0⟩

/-- 16-bit decode of `80 01 FF` against the two-character table `AB`. -/
def cfgC3w : DecCfg := ⟨[0x80, 0x01, 0xFF], [Char.ofNat 65, Char.ofNat 66], "", "", false, 0⟩

/-- Text bytes `04 1F 2A FF 00`: a SetColor opcode whose B component is the
byte `0xFF`. -/
def cfgC5w : DecCfg := ⟨[0x04, 0x1F, 0x2A, 0xFF, 0x00], [], "", "", false, 0⟩

/-- Text bytes `05 FF`: the unknown opcode `0x05`. -/
def cfgC8w : DecCfg := ⟨[0x05, 0xFF], [], "", "", false, 0⟩

/-- 16 bytes whose first 4 bytes are the MSB magic and whose entry count
field is 1: the entry table itself lies past the end of the buffer. -/
def rawC6 : List Nat := [77, 69, 83, 0, 1, 0, 0, 0, 1, 0, 0, 0, 16, 0, 0, 0]

/-- 16 bytes with the MSB magic, version 2, entry count 0, text offset 32. -/
def rawC6ok : List Nat := [77, 69, 83, 0, 2, 0, 0, 0, 0, 0, 0, 0, 32, 0, 0, 0]

/-- 16-bit mode, empty table, text bytes `00 00 80`, base offset 0: used
with the entry `(7, -1)`, whose start position is the negative index -1. -/
def cfgC10 : DecCfg := ⟨[0x00, 0x00, 0x80], [], "", "", false, 0⟩

/-- Three arbitrary bytes, used to exercise a negative start position. -/
def cfgC10w : DecCfg := ⟨[9, 8, 7], [], "", "", false, 0⟩

/-! # Theorems -/

/-! ## Formatting lemmas -/

lemma data_mk (l : List Char) : (String.mk l).data = l := rfl

lemma length_mk (l : List Char) : (String.mk l).length = l.length := rfl

lemma toHexListAux_length_le : ∀ fuel n k : Nat, 0 < k → n < 16 ^ k →
    (toHexListAux fuel n).length ≤ k := by
  intro fuel
  induction fuel with
  | zero => intro n k hk _; simp [toHexListAux]
  | succ m ih =>
    intro n k hk hn
    rw [toHexListAux]
    split
    · simpa using hk
    · rename_i h16
      push_neg at h16
      have hk2 : 2 ≤ k := by
        by_contra hc
        have hk1 : k = 1 := by omega
        rw [hk1, pow_one] at hn
        omega
      have hlt : n / 16 < 16 ^ (k - 1) := by
        have hp : 16 ^ k = 16 ^ (k - 1) * 16 := by
          conv_lhs => rw [show k = (k - 1) + 1 by omega]
          rw [pow_succ]
        refine (Nat.div_lt_iff_lt_mul (by omega)).mpr ?_
        omega
      have := ih (n / 16) (k - 1) (by omega) hlt
      simp only [List.length_append, List.length_cons, List.length_nil]
      omega

lemma toHexList_length_le (n k : Nat) (hk : 0 < k) (hn : n < 16 ^ k) :
    (toHexList n).length ≤ k :=
  toHexListAux_length_le (n + 1) n k hk hn

lemma hexChar_upper : ∀ m : Nat, m < 16 → isUpperHexChar (hexChar m) = true := by
  decide

lemma toHexListAux_upper : ∀ fuel n : Nat, ∀ c ∈ toHexListAux fuel n,
    isUpperHexChar c = true := by
  intro fuel
  induction fuel with
  | zero => intro n c hc; simp [toHexListAux] at hc
  | succ m ih =>
    intro n c hc
    rw [toHexListAux] at hc
    split at hc
    · rename_i h16
      simp only [List.mem_singleton] at hc
      subst hc
      exact hexChar_upper n h16
    · rcases List.mem_append.mp hc with h | h
      · exact ih (n / 16) c h
      · simp only [List.mem_singleton] at h
        subst h
        exact hexChar_upper (n % 16) (Nat.mod_lt _ (by omega))

lemma toHexList_upper (n : Nat) : ∀ c ∈ toHexList n, isUpperHexChar c = true :=
  toHexListAux_upper (n + 1) n

lemma pyFormatHex_length (n w : Nat) (h : (toHexList n).length ≤ w) :
    (pyFormatHex n w).length = w := by
  simp only [pyFormatHex, length_mk, List.length_append, List.length_replicate]
  omega

lemma pyFormatHex_upper (n w : Nat) :
    ∀ c ∈ (pyFormatHex n w).data, isUpperHexChar c = true := by
  intro c hc
  simp only [pyFormatHex, data_mk] at hc
  rcases List.mem_append.mp hc with h | h
  · rw [List.eq_of_mem_replicate h]
    decide
  · exact toHexList_upper n c h

/-- Any byte value below 256 prints as exactly two hex digits under `02X`. -/
lemma pyFormatHex2_length (n : Nat) (h : n < 256) : (pyFormatHex n 2).length = 2 :=
  pyFormatHex_length n 2 (toHexList_length_le n 2 (by omega) (by omega))

lemma pySlice_subset (raw : List Nat) (a b : Int) : pySlice raw a b ⊆ raw := by
  intro x hx
  unfold pySlice at hx
  exact List.drop_subset _ _ (List.take_subset _ _ hx)

/-- At the stuck state of `cfgC1` (cursor 2 pointing at the char-range byte
`0x80` with only one byte left, `char_code` previously assigned 0), the loop
re-appends the stale character without advancing the cursor, so no amount of
fuel makes it exit. -/
lemma c1_stuck : ∀ (fuel : Nat) (acc : String),
    decodeLoop cfgC1 fuel ⟨2, some 0, acc⟩ = .spin := by
  intro fuel
  induction fuel with
  | zero => intro acc; rfl
  | succ n ih =>
    intro acc
    exact ih (acc ++ String.singleton (Char.ofNat 65))

/-- Claim C1: the claim says the per-entry decoding loop advances the cursor
by at least one byte on every iteration and hence terminates within
`buffer_length` steps.  On the three-byte input of `cfgC1` (the last byte a
character-range byte with too few bytes left for the 16-bit width), the code
instead re-processes the same cursor position forever: for every fuel bound
the loop has still not terminated. -/
theorem c1_nontermination : ∀ fuel : Nat,
    parse_text_data cfgC1 [(0, 0)] fuel = ⟨[], RunStatus.outOfFuel⟩ := by
  intro fuel
  cases fuel with
  | zero => rfl
  | succ n =>
    have h : decodeLoop cfgC1 (n + 1) ⟨cfgC1.textOffset + 0, none, ""⟩ = .spin :=
      c1_stuck n ("" ++ String.singleton (Char.ofNat 65))
    simp only [parse_text_data, parseEntries, h]

/-- Claim C2: the claim says an entry whose text begins at the last byte of
the buffer (a character-range byte with too few remaining bytes for the word
width) produces no character and terminates the entry immediately.  The code
instead references the never-assigned `char_code` variable, raising
`UnboundLocalError` and aborting the whole parse. -/
theorem c2_unbound_char_code : ∀ fuel : Nat,
    parse_text_data cfgC2 [(0, 0)] (fuel + 1) = ⟨[], RunStatus.raised⟩ := by
  intro fuel
  rfl

/-- Claim C7: the claim (and the comment in the source) says ideographic
spaces are removed by the character-table loader; the code only replaces
`'\r'`, `'\n'` and the regular space U+0020, so the ideographic space U+3000
is kept. -/
theorem c7_ideographic_space_kept :
    read_font_data [Char.ofNat 0x3000] = [Char.ofNat 0x3000] := by
  decide

/-- Claim C3: when a decoded character code `c` is in range of the table the
engine appends the table character at position `c` unmodified; when it is
out of range it appends the bracketed zero-padded 8-digit uppercase hex
placeholder (of length exactly 8, all uppercase hex digits); in both cases
the step continues decoding the entry (`.cont`, not a failure), shown here
for a successfully read 16-bit character. -/
theorem c3_char_lookup :
    (∀ (font : List Char) (acc : String) (code : Nat) (h : code < font.length),
       appendDecoded font acc code = acc ++ String.singleton (font.get ⟨code, h⟩)) ∧
    (∀ (font : List Char) (acc : String) (code : Nat), font.length ≤ code →
       appendDecoded font acc code = acc ++ "[" ++ pyFormatHex code 8 ++ "]") ∧
    (∀ code : Nat, code < 16 ^ 8 →
       (pyFormatHex code 8).length = 8 ∧
       ∀ c ∈ (pyFormatHex code 8).data, isUpperHexChar c = true) ∧
    (∀ (cfg : DecCfg) (i : Int) (cc : Option Nat) (acc : String) (b0 b1 : Nat),
       cfg.is32bit = false → i + 1 < (cfg.raw.length : Int) →
       pyByteAt cfg.raw i = some b0 → 0x80 ≤ b0 → b0 < 0xFF →
       pySlice cfg.raw i (i + 2) = [b0, b1] →
       decodeStep cfg ⟨i, cc, acc⟩ =
         .cont ⟨i + 2, some ((b0 * 256 + b1) % 0x8000),
                appendDecoded cfg.font acc ((b0 * 256 + b1) % 0x8000)⟩) := by
  refine ⟨?_, ?_, ?_, ?_⟩
  · intro font acc code h
    simp [appendDecoded, hex_to_char, dif_pos h]
  · intro font acc code h
    simp [appendDecoded, hex_to_char, dif_neg (not_lt.mpr h)]
  · intro code h
    exact ⟨pyFormatHex_length code 8 (toHexList_length_le code 8 (by omega) h),
           pyFormatHex_upper code 8⟩
  · intro cfg i cc acc b0 b1 h32 hlen hbyte h80 hFF hslice
    have hi : i < (cfg.raw.length : Int) := by omega
    unfold decodeStep
    rw [if_pos hi, hbyte]
    dsimp only
    rw [if_pos (And.intro h80 hFF), if_pos h32, if_pos hlen, hslice]

/-- Witness for C3: with the table `AB`, code 1 appends `B`; with a
one-character table, code 5 appends the placeholder `[00000005]`; and the
16-bit step on `cfgC3w` reads `80 01`, masks it to code 1 and continues. -/
theorem c3_char_lookup_witness :
    appendDecoded [Char.ofNat 65, Char.ofNat 66] "x" 1 =
      "x" ++ String.singleton (Char.ofNat 66) ∧
    appendDecoded [Char.ofNat 65] "" 5 = "" ++ "[" ++ pyFormatHex 5 8 ++ "]" ∧
    (pyFormatHex 5 8).length = 8 ∧
    decodeStep cfgC3w ⟨0, none, ""⟩ =
      .cont ⟨2, some 1, appendDecoded cfgC3w.font "" 1⟩ := by
  refine ⟨c3_char_lookup.1 _ "x" 1 (by decide), c3_char_lookup.2.1 _ "" 5 (by decide),
          (c3_char_lookup.2.2.1 5 (by decide)).1, ?_⟩
  exact c3_char_lookup.2.2.2 cfgC3w 0 none "" 0x80 0x01 rfl (by decide) rfl
    (by decide) (by decide) rfl

/-- Claim C5: when the cursor reaches the byte `0x04` with at least 3
following bytes in the buffer, the engine reads those bytes as R, G, B,
appends `<#RRGGBB>` with each component formatted as 2 uppercase hex digits
(exactly 2 digits, bytes being below 256), and advances the cursor by 4. -/
theorem c5_setcolor (cfg : DecCfg) (i : Int) (cc : Option Nat) (acc : String)
    (r g bb : Nat)
    (hwf : ∀ x ∈ cfg.raw, x < 256)
    (hlen : i + 3 < (cfg.raw.length : Int))
    (hbyte : pyByteAt cfg.raw i = some 0x04)
    (hslice : pySlice cfg.raw (i + 1) (i + 4) = [r, g, bb]) :
    decodeStep cfg ⟨i, cc, acc⟩ =
      .cont ⟨i + 4, cc,
        acc ++ "<#" ++ pyFormatHex r 2 ++ pyFormatHex g 2 ++ pyFormatHex bb 2 ++ ">"⟩ ∧
    (pyFormatHex r 2).length = 2 ∧ (pyFormatHex g 2).length = 2 ∧
    (pyFormatHex bb 2).length = 2 := by
  have hsub : [r, g, bb] ⊆ cfg.raw := hslice ▸ pySlice_subset cfg.raw (i + 1) (i + 4)
  have hi : i < (cfg.raw.length : Int) := by omega
  refine ⟨?_, pyFormatHex2_length r (hwf r (hsub (by simp))),
          pyFormatHex2_length g (hwf g (hsub (by simp))),
          pyFormatHex2_length bb (hwf bb (hsub (by simp)))⟩
  unfold decodeStep
  rw [if_pos hi, hbyte]
  dsimp only
  rw [if_neg (by omega : ¬(0x80 ≤ 0x04 ∧ (0x04 : Nat) < 0xFF)),
      if_neg (by omega : ¬(0x04 : Nat) = 0xFF),
      if_pos (And.intro rfl hlen), hslice]

/-- Witness for C5: on `cfgC5w` the SetColor opcode at position 0 consumes
`1F 2A FF` (the trailing `0xFF` as the B component, not a terminator),
renders `<#1F2AFF>`, and moves the cursor to 4. -/
theorem c5_setcolor_witness :
    decodeStep cfgC5w ⟨0, none, ""⟩ =
      .cont ⟨4, none,
        "" ++ "<#" ++ pyFormatHex 0x1F 2 ++ pyFormatHex 0x2A 2 ++ pyFormatHex 0xFF 2 ++ ">"⟩ ∧
    "" ++ "<#" ++ pyFormatHex 0x1F 2 ++ pyFormatHex 0x2A 2 ++ pyFormatHex 0xFF 2 ++ ">" =
      "<#1F2AFF>" := by
  refine ⟨(c5_setcolor cfgC5w 0 none "" 0x1F 0x2A 0xFF (by decide) (by decide) rfl rfl).1, ?_⟩
  decide

/-- Claim C8: for every command byte `b < 0x80` that is not one of the
specially handled opcodes (`0x04` with 3 operand bytes available, `0x12`
with 2 operand bytes available, `0x20`, `0x21`), the engine appends the
bracketed opcode-table name if `b` is in the table and `[Cmd<XX>]` (2-digit
uppercase hex) otherwise, advancing the cursor by exactly 1. -/
theorem c8_generic_command (cfg : DecCfg) (i : Int) (cc : Option Nat) (acc : String)
    (b : Nat)
    (hi : i < (cfg.raw.length : Int))
    (hbyte : pyByteAt cfg.raw i = some b)
    (hb : b < 0x80)
    (h04 : b = 0x04 → ¬(i + 3 < (cfg.raw.length : Int)))
    (h12 : b = 0x12 → ¬(i + 2 < (cfg.raw.length : Int)))
    (h20 : b ≠ 0x20) (h21 : b ≠ 0x21) :
    decodeStep cfg ⟨i, cc, acc⟩ =
      .cont ⟨i + 1, cc,
        acc ++ "[" ++ ((COMMAND_CODES.lookup b).getD ("Cmd" ++ pyFormatHex b 2)) ++ "]"⟩ := by
  unfold decodeStep
  rw [if_pos hi, hbyte]
  dsimp only
  rw [if_neg (by omega : ¬(0x80 ≤ b ∧ b < 0xFF)),
      if_neg (by omega : ¬b = 0xFF),
      if_neg (fun h => h04 h.1 h.2),
      if_neg (fun h => h12 h.1 h.2),
      if_neg h20, if_neg h21]

/-- Witness for C8: on `cfgC8w` the unknown opcode byte `0x05` at position 0
yields the literal `[Cmd05]` and advances the cursor to 1. -/
theorem c8_generic_command_witness :
    decodeStep cfgC8w ⟨0, none, ""⟩ =
      .cont ⟨1, none,
        "" ++ "[" ++ ((COMMAND_CODES.lookup 0x05).getD ("Cmd" ++ pyFormatHex 0x05 2)) ++ "]"⟩ ∧
    "" ++ "[" ++ ((COMMAND_CODES.lookup 0x05).getD ("Cmd" ++ pyFormatHex 0x05 2)) ++ "]" =
      "[Cmd05]" := by
  refine ⟨c8_generic_command cfgC8w 0 none "" 0x05 (by decide) rfl (by decide)
    (fun h => by simp at h) (fun h => by simp at h) (by decide) (by decide), ?_⟩
  decide

/-- The records emitted by the entry loop come from a selection of entries:
each selected entry contributes exactly one record, built from a non-empty
accumulator and that entry's own index, and the selection preserves
entry-table order. -/
lemma parseEntries_shape (cfg : DecCfg) (fuel : Nat) :
    ∀ (entries : List (Int × Int)) (cc : Option Nat),
    ∃ sel : List ((Int × Int) × String),
      (parseEntries cfg fuel entries cc).strings = sel.map Prod.snd ∧
      List.Sublist (sel.map Prod.fst) entries ∧
      ∀ p ∈ sel, ∃ acc : String, acc ≠ "" ∧
        p.2 = "[" ++ toString p.1.1 ++ "] " ++ acc := by
  intro entries
  induction entries with
  | nil =>
    intro cc
    exact ⟨[], rfl, List.nil_sublist _, by simp⟩
  | cons e rest ih =>
    intro cc
    obtain ⟨idx, off⟩ := e
    cases hdl : decodeLoop cfg fuel ⟨cfg.textOffset + off, cc, ""⟩ with
    | ok cc2 acc =>
      obtain ⟨sel, hs, hsub, hmem⟩ := ih cc2
      by_cases hacc : acc = ""
      · refine ⟨sel, ?_, hsub.cons _, hmem⟩
        simp [parseEntries, hdl, hacc, hs]
      · refine ⟨((idx, off), "[" ++ toString idx ++ "] " ++ acc) :: sel, ?_,
          hsub.cons₂ _, ?_⟩
        · simp [parseEntries, hdl, hacc, hs]
        · intro p hp
          rcases List.mem_cons.mp hp with h | h
          · subst h
            exact ⟨acc, hacc, rfl⟩
          · exact hmem p h
    | exn =>
      refine ⟨[], ?_, List.nil_sublist _, by simp⟩
      simp [parseEntries, hdl]
    | spin =>
      refine ⟨[], ?_, List.nil_sublist _, by simp⟩
      simp [parseEntries, hdl]

/-- Claim C4: the decoding pass emits at most one record per entry (so at
most `entry_count` records in total); there is a selection of source entries,
in entry-table order, such that each emitted record is exactly
`"[" ++ logical_index ++ "] " ++ accumulator` for its source entry's own
logical index with a non-empty accumulator — entries whose accumulator ends
empty contribute no record. -/
theorem c4_records :
    ∀ (cfg : DecCfg) (entries : List (Int × Int)) (fuel : Nat),
      (parse_text_data cfg entries fuel).strings.length ≤ entries.length ∧
      ∃ sel : List ((Int × Int) × String),
        (parse_text_data cfg entries fuel).strings = sel.map Prod.snd ∧
        List.Sublist (sel.map Prod.fst) entries ∧
        ∀ p ∈ sel, ∃ acc : String, acc ≠ "" ∧
          p.2 = "[" ++ toString p.1.1 ++ "] " ++ acc := by
  intro cfg entries fuel
  obtain ⟨sel, hs, hsub, hmem⟩ := parseEntries_shape cfg fuel entries none
  refine ⟨?_, sel, hs, hsub, hmem⟩
  have h1 : (parse_text_data cfg entries fuel).strings.length = sel.length := by
    rw [parse_text_data, hs, List.length_map]
  have h2 : (sel.map Prod.fst).length ≤ entries.length := hsub.length_le
  rw [List.length_map] at h2
  omega

/-- Claim C9: decoding is deterministic — the decoding pass is a pure
function of the raw bytes, the character table, the two player-name strings,
the word-width mode, the text base offset and the entry table, so two runs
on the same inputs give identical output. -/
theorem c9_deterministic :
    ∀ (raw : List Nat) (font : List Char) (surname givenName : String)
      (is32bit : Bool) (textOffset : Int) (entries : List (Int × Int)) (fuel : Nat),
      parse_text_data ⟨raw, font, surname, givenName, is32bit, textOffset⟩ entries fuel =
        parse_text_data ⟨raw, font, surname, givenName, is32bit, textOffset⟩ entries fuel := by
  intro raw font surname givenName is32bit textOffset entries fuel
  rfl

/-- Claim C10 counterexample: the claim says an entry whose start position is
negative but not below `-buffer_length` is never a failure.  For `cfgC10`
with entry `(7, -1)` the start position is -1 (within `-3 ≤ -1 < 0`), yet
the decoder raises: the byte at index -1 is a character-range byte and the
slice `raw[-1:1]` is empty, so `struct.unpack` fails and the parse aborts. -/
theorem c10_counterexample :
    (-(cfgC10.raw.length : Int) ≤ cfgC10.textOffset + (-1)) ∧
    (cfgC10.textOffset + (-1) < 0) ∧
    parse_text_data cfgC10 [(7, -1)] 5 = ⟨[], RunStatus.raised⟩ := by
  exact ⟨by decide, by decide, rfl⟩

/-! ## Header-reader lemmas -/

lemma pySlice_natCast_length (raw : List Nat) (a b : Nat) :
    (pySlice raw (a : Int) (b : Int)).length =
      min b raw.length - min a raw.length := by
  have ha : ¬((a : Int) < 0) := by omega
  have hb : ¬((b : Int) < 0) := by omega
  simp only [pySlice, sliceIdx, if_neg ha, if_neg hb, Int.toNat_natCast,
    List.length_take, List.length_drop]
  omega

lemma unpackI32LE_ok (s : List Nat) (h : s.length = 4) :
    ∃ v, unpackI32LE s = .ok v := by
  rcases s with _ | ⟨b0, _ | ⟨b1, _ | ⟨b2, _ | ⟨b3, _ | ⟨b4, t⟩⟩⟩⟩⟩ <;>
    simp_all [unpackI32LE]

lemma unpackI32LE_err (s : List Nat) (h : s.length ≠ 4) :
    unpackI32LE s = .error .structError := by
  rcases s with _ | ⟨b0, _ | ⟨b1, _ | ⟨b2, _ | ⟨b3, _ | ⟨b4, t⟩⟩⟩⟩⟩ <;>
    simp_all [unpackI32LE]

lemma unpackI32I32LE_ok (s : List Nat) (h : s.length = 8) :
    ∃ v, unpackI32I32LE s = .ok v := by
  rcases s with _ | ⟨b0, _ | ⟨b1, _ | ⟨b2, _ | ⟨b3, _ | ⟨b4, _ | ⟨b5, _ |
    ⟨b6, _ | ⟨b7, _ | ⟨b8, t⟩⟩⟩⟩⟩⟩⟩⟩⟩ <;> simp_all [unpackI32I32LE]

lemma unpackI32I32LE_err (s : List Nat) (h : s.length ≠ 8) :
    unpackI32I32LE s = .error .structError := by
  rcases s with _ | ⟨b0, _ | ⟨b1, _ | ⟨b2, _ | ⟨b3, _ | ⟨b4, _ | ⟨b5, _ |
    ⟨b6, _ | ⟨b7, _ | ⟨b8, t⟩⟩⟩⟩⟩⟩⟩⟩⟩ <;> simp_all [unpackI32I32LE]

lemma entrySlice_length (raw : List Nat) (pos : Nat) :
    (pySlice raw (pos : Int) ((pos : Int) + 8)).length =
      min (pos + 8) raw.length - min pos raw.length := by
  have h : ((pos : Int) + 8) = ((pos + 8 : Nat) : Int) := by push_cast; ring
  rw [h, pySlice_natCast_length]

lemma readEntries_ok (raw : List Nat) :
    ∀ (n pos : Nat), pos + 8 * n ≤ raw.length →
      ∃ es, readEntries raw n pos = .ok es := by
  intro n
  induction n with
  | zero => intro pos _; exact ⟨[], rfl⟩
  | succ m ih =>
    intro pos h
    have hlen : (pySlice raw (pos : Int) ((pos : Int) + 8)).length = 8 := by
      rw [entrySlice_length]
      omega
    obtain ⟨v, hv⟩ := unpackI32I32LE_ok _ hlen
    obtain ⟨es, hes⟩ := ih (pos + 8) (by omega)
    exact ⟨v :: es, by simp [readEntries, hv, hes]⟩

lemma readEntries_err (raw : List Nat) :
    ∀ (n pos : Nat), raw.length < pos + 8 * n → 0 < n →
      readEntries raw n pos = .error .structError := by
  intro n
  induction n with
  | zero => intro pos _ h; omega
  | succ m ih =>
    intro pos h _
    by_cases h8 : pos + 8 ≤ raw.length
    · have hlen : (pySlice raw (pos : Int) ((pos : Int) + 8)).length = 8 := by
        rw [entrySlice_length]
        omega
      obtain ⟨v, hv⟩ := unpackI32I32LE_ok _ hlen
      have hm : 0 < m := by omega
      have := ih (pos + 8) (by omega) hm
      simp [readEntries, hv, this]
    · have hlen : (pySlice raw (pos : Int) ((pos : Int) + 8)).length ≠ 8 := by
        rw [entrySlice_length]
        omega
      simp [readEntries, unpackI32I32LE_err _ hlen]

/-- Claim C6 counterexample: the claim says the header reader returns a
header exactly when the first 4 bytes are `MES\0` and at least 16 bytes are
available.  `rawC6` satisfies both conditions (16 bytes, valid magic), but
its entry count is 1 and the 8-byte entry record would lie past the end of
the buffer, so `read_header` fails with a struct error instead. -/
theorem c6_counterexample :
    pySlice rawC6 0 4 = MSB_SIGNATURE ∧ 16 ≤ rawC6.length ∧
    read_header rawC6 = .error .structError := by
  exact ⟨rfl, by decide, rfl⟩

/-- Claim C6 as amended: the header reader checks the magic first, so any
buffer whose first 4 bytes differ from `MES\0` (including buffers shorter
than 4 bytes) fails with the bad-magic error; with a valid magic but fewer
than 16 bytes it fails with a struct (truncation) error; and with a valid
magic and at least 16 bytes it returns the header (version, entry count,
text offset, all little-endian signed 32-bit) exactly when the buffer also
holds the full 8-byte-per-entry table, failing with a struct error when the
entry table extends past the end of the buffer. -/
theorem c6_amended (raw : List Nat) :
    (pySlice raw 0 4 ≠ MSB_SIGNATURE → read_header raw = .error .badMagic) ∧
    (pySlice raw 0 4 = MSB_SIGNATURE → raw.length < 16 →
      read_header raw = .error .structError) ∧
    (pySlice raw 0 4 = MSB_SIGNATURE → 16 ≤ raw.length →
      ∀ version count toff : Int,
        unpackI32LE (pySlice raw 4 8) = .ok version →
        unpackI32LE (pySlice raw 8 12) = .ok count →
        unpackI32LE (pySlice raw 12 16) = .ok toff →
        (16 + 8 * count.toNat ≤ raw.length →
          ∃ es, read_header raw = .ok ⟨version, count, toff, es⟩) ∧
        (raw.length < 16 + 8 * count.toNat →
          read_header raw = .error .structError)) := by
  have hc4 : ((4 : Int)) = ((4 : Nat) : Int) := by norm_num
  have hc8 : ((8 : Int)) = ((8 : Nat) : Int) := by norm_num
  have hc12 : ((12 : Int)) = ((12 : Nat) : Int) := by norm_num
  have hc16 : ((16 : Int)) = ((16 : Nat) : Int) := by norm_num
  have l48 : (pySlice raw 4 8).length = min 8 raw.length - min 4 raw.length := by
    rw [hc4, hc8, pySlice_natCast_length]
  have l812 : (pySlice raw 8 12).length = min 12 raw.length - min 8 raw.length := by
    rw [hc8, hc12, pySlice_natCast_length]
  have l1216 : (pySlice raw 12 16).length = min 16 raw.length - min 12 raw.length := by
    rw [hc12, hc16, pySlice_natCast_length]
  refine ⟨?_, ?_, ?_⟩
  · intro h
    simp [read_header, h]
  · intro hm h16
    by_cases h8 : raw.length < 8
    · have : (pySlice raw 4 8).length ≠ 4 := by omega
      simp [read_header, hm, unpackI32LE_err _ this]
    · by_cases h12 : raw.length < 12
      · obtain ⟨v, hv⟩ := unpackI32LE_ok (pySlice raw 4 8) (by omega)
        have : (pySlice raw 8 12).length ≠ 4 := by omega
        simp [read_header, hm, hv, unpackI32LE_err _ this]
      · obtain ⟨v, hv⟩ := unpackI32LE_ok (pySlice raw 4 8) (by omega)
        obtain ⟨c, hc⟩ := unpackI32LE_ok (pySlice raw 8 12) (by omega)
        have : (pySlice raw 12 16).length ≠ 4 := by omega
        simp [read_header, hm, hv, hc, unpackI32LE_err _ this]
  · intro hm h16 version count toff hv hc ht
    constructor
    · intro hes
      obtain ⟨es, hre⟩ := readEntries_ok raw count.toNat 16 (by omega)
      exact ⟨es, by simp [read_header, hm, hv, hc, ht, hre]⟩
    · intro hlt
      have hn : 0 < count.toNat := by omega
      have hre := readEntries_err raw count.toNat 16 (by omega) hn
      simp [read_header, hm, hv, hc, ht, hre]

/-- Witness for C6: `rawC6ok` has a valid magic, 16 bytes, entry count 0;
the header reader returns version 2, count 0, text offset 32. -/
theorem c6_amended_witness :
    pySlice rawC6ok 0 4 = MSB_SIGNATURE ∧ 16 ≤ rawC6ok.length ∧
    ∃ es, read_header rawC6ok = .ok ⟨2, 0, 32, es⟩ := by
  refine ⟨rfl, by decide, ?_⟩
  exact ((c6_amended rawC6ok).2.2 rfl (by decide) 2 0 32 rfl rfl rfl).1 (by decide)

/-- Claim C10 as amended: for every entry whose computed start position is
negative but not below `-buffer_length`, the loop condition
`cursor < buffer_length` holds (the entry is entered, not skipped) and the
byte read at the negative cursor resolves to
`buffer[buffer_length + start]`, near the end of the buffer (Python
negative-index semantics) — the entry is decoded from the wrong position.
(The further part of the original claim, that such an entry can never make
the decoder fail, is refuted by `cfgC10`: a multi-byte read at a negative
cursor can produce a wrong-sized slice and abort the parse.) -/
theorem c10_amended (cfg : DecCfg) (start : Int)
    (h1 : -(cfg.raw.length : Int) ≤ start) (h2 : start < 0) :
    start < (cfg.raw.length : Int) ∧
    ∃ b, pyByteAt cfg.raw start = some b ∧
      cfg.raw.get? (start + cfg.raw.length).toNat = some b := by
  have hidx : (start + (cfg.raw.length : Int)).toNat < cfg.raw.length := by omega
  refine ⟨by omega, cfg.raw.get ⟨_, hidx⟩, ?_, List.get?_eq_get hidx⟩
  unfold pyByteAt
  rw [if_neg (by omega), if_pos h1]
  exact List.get?_eq_get hidx

/-- Witness for C10: on the 3-byte buffer of `cfgC10w` the start position -3
is in range, the loop condition holds, and the byte read is `raw[0] = 9`. -/
theorem c10_amended_witness :
    (-(cfgC10w.raw.length : Int) ≤ -3 ∧ (-3 : Int) < 0) ∧
    ((-3 : Int) < (cfgC10w.raw.length : Int) ∧
      ∃ b, pyByteAt cfgC10w.raw (-3) = some b ∧
        cfgC10w.raw.get? ((-3) + (cfgC10w.raw.length : Int)).toNat = some b) := by
  exact ⟨⟨by decide, by decide⟩, c10_amended cfgC10w (-3) (by decide) (by decide)⟩

end Msb
